import Mathlib

set_option maxHeartbeats 1000000

/-!
Verification of the require-atomic-updates analysis
(src/lib/rules/require-atomic-updates.js).

The embedding models exactly the data the rule inspects.  AST nodes are
reduced to the fields the rule reads: an identifier reference carries the
chain of its ancestor nodes upward, an expression node carries the operator
of its parent and whether it is the right child of its parent.  Scopes and
CFG segments are identified by numeric ids, which model JS object identity.
-/

/-- Identity of a variable as used by the JS Set objects of the segment
store: either a resolved binding (object identity modelled by a numeric id)
or the lazily created dummy placeholder, which is cached per name, so its
identity is its name. -/
inductive VarKey where
  | resolved (id : Nat)
  | dummy (name : String)
deriving DecidableEq

/-- An expression node of the AST, reduced to the data the rule reads from
it: an identity, the operator field of its parent node (none when the parent
kind has no operator field), and whether it is the right child of its
parent. -/
structure Expr where
  id : Nat
  parentOperator : Option String
  parentRightIsSelf : Bool
deriving DecidableEq

/-- One ancestor of an identifier node, as inspected by the upward walks in
getReferenceName and getWriteExpr: a MemberExpression parent together with
whether the walked node is its object and the getPropertyName result for it
(none when the property is computed and not statically known), an
AssignmentExpression parent together with whether the walked node is its
left side and with its right side, or any other parent kind. -/
inductive ParentStep where
  | member (isObject : Bool) (propName : Option String)
  | assign (isLeft : Bool) (rhs : Expr)
  | other
deriving DecidableEq

/-- An escope reference: the identifier name, the ancestor chain of the
identifier node from its parent upward, the read flag, the writeExpr field,
the resolved binding (none for unresolved references) and the variableScope
of the scope the reference occurs in. -/
structure Reference where
  identName : String
  chain : List ParentStep
  isRead : Bool
  writeExprOwn : Option Expr
  resolved : Option Nat
  fromVariableScope : Nat
deriving DecidableEq

/-- An escope variable (or the dummy stand-in created by getVariable): its
name, the variableScope of its scope, and its reference list. -/
structure Variable where
  name : String
  scopeVariableScope : Nat
  references : List Reference
deriving DecidableEq

/-- Loop of getReferenceName: while the parent is a MemberExpression whose
object is the walked node, append the getPropertyName result, with the
wildcard for a JS-falsy result, that is for null and also for the empty
string, since the source combines them with a JS or. -/
def chainNames : List ParentStep → List String
  | ParentStep.member true p :: rest =>
    (match p with
     | some s => if s = "" then ("*") else s
     | none => ("*")) :: chainNames rest
  | _ => []

/-- Translation of getReferenceName: the identifier name followed by the
property names collected along the member access chain, joined with dots. -/
def getReferenceName (ref : Reference) : String :=
  String.intercalate (".") (ref.identName :: chainNames ref.chain)

/-- Translation of isLocalVariableWithoutEscape: every reference to the
variable whose computed name equals the given name must come from the same
function variable scope as the variable itself. -/
def isLocalVariableWithoutEscape (v : Variable) (referenceName : String) : Bool :=
  (v.references.filter (fun r => getReferenceName r == referenceName)).all
    (fun r => r.fromVariableScope == v.scopeVariableScope)

/-- A CFG path segment: its identity and the identities of its predecessor
segments. -/
structure Segment where
  id : Nat
  prevSegments : List Nat
deriving DecidableEq

/-- The per-segment record held by the SegmentInfo class: the outdated and
the fresh read variable sets. -/
structure SegState where
  outdatedReadVariables : Finset VarKey
  freshReadVariables : Finset VarKey
deriving DecidableEq

/-- The info map of the SegmentInfo class, keyed by segment identity; a
segment on which the initializer never ran is mapped to none. -/
abbrev SegmentStore := Nat → Option SegState

/-- Store update at one segment key. -/
def setSeg (store : SegmentStore) (s : Nat) (v : SegState) : SegmentStore :=
  fun t => if t = s then some v else store t

/-- Loop of the SegmentInfo initializer over the predecessor segments:
predecessors with state contribute both of their sets to the accumulated
sets, predecessors without state are skipped. -/
def joinFold (store : SegmentStore) : List Nat → SegState → SegState
  | [], acc => acc
  | p :: rest, acc =>
    match store p with
    | some i =>
      joinFold store rest
        (SegState.mk (acc.outdatedReadVariables ∪ i.outdatedReadVariables)
          (acc.freshReadVariables ∪ i.freshReadVariables))
    | none => joinFold store rest acc

/-- Sets computed by the SegmentInfo initializer for a new segment. -/
def joinStates (store : SegmentStore) (prevs : List Nat) : SegState :=
  joinFold store prevs (SegState.mk ∅ ∅)

/-- Translation of the SegmentInfo initializer: store, under the identity of
the new segment, the join of the predecessor states. -/
def SegmentStore.initSeg (store : SegmentStore) (seg : Segment) : SegmentStore :=
  setSeg store seg.id (joinStates store seg.prevSegments)

/-- Translation of SegmentInfo.markAsRead: add the variable to the fresh set
of every given segment that has state. -/
def SegmentStore.markAsRead : SegmentStore → List Nat → VarKey → SegmentStore
  | store, [], _ => store
  | store, s :: rest, v =>
    match store s with
    | some i =>
      SegmentStore.markAsRead
        (setSeg store s
          (SegState.mk i.outdatedReadVariables (insert v i.freshReadVariables)))
        rest v
    | none => SegmentStore.markAsRead store rest v

/-- Translation of SegmentInfo.makeOutdated: on every given segment that has
state, union the fresh set into the outdated set and clear the fresh set.
The local vars set the source also fills is never read afterwards and is
dropped here. -/
def SegmentStore.makeOutdated : SegmentStore → List Nat → SegmentStore
  | store, [] => store
  | store, s :: rest =>
    match store s with
    | some i =>
      SegmentStore.makeOutdated
        (setSeg store s
          (SegState.mk (i.outdatedReadVariables ∪ i.freshReadVariables) ∅))
        rest
    | none => SegmentStore.makeOutdated store rest

/-- Translation of SegmentInfo.isOutdated: the variable is in the outdated
set of at least one of the given segments that has state. -/
def SegmentStore.isOutdated (store : SegmentStore) : List Nat → VarKey → Bool
  | [], _ => false
  | s :: rest, v =>
    match store s with
    | some i =>
      if v ∈ i.outdatedReadVariables then true else SegmentStore.isOutdated store rest v
    | none => SegmentStore.isOutdated store rest v

/-- Lookup in the dummy variable cache, a Map keyed by name. -/
def lookupDummy : List (String × Variable) → String → Option Variable
  | [], _ => none
  | pr :: rest, n => if pr.1 = n then some pr.2 else lookupDummy rest n

/-- Update of the dummy variable cache at one name. -/
def setDummy : List (String × Variable) → String → Variable → List (String × Variable)
  | [], n, v => [(n, v)]
  | pr :: rest, n, v => if pr.1 = n then (n, v) :: rest else pr :: setDummy rest n v

/-- Set identity of the variable getVariable returns for a reference. -/
def varKeyOf (ref : Reference) : VarKey :=
  match ref.resolved with
  | some i => VarKey.resolved i
  | none => VarKey.dummy ref.identName

/-- Translation of getVariable: a resolved reference yields its binding; an
unresolved one yields the dummy variable cached under its name, created with
the global scope when absent, and in the dummy case the current reference is
pushed onto the variable reference list before the variable is returned.
The global scope is its own variableScope, so the dummy scope field holds
the global scope id.  The environment function models the resolved binding
objects. -/
def getVariable (env : Nat → Variable) (globalScope : Nat)
    (dummies : List (String × Variable)) (ref : Reference) :
    VarKey × Variable × List (String × Variable) :=
  match ref.resolved with
  | some i => (VarKey.resolved i, env i, dummies)
  | none =>
    let v0 :=
      match lookupDummy dummies ref.identName with
      | some v => v
      | none => Variable.mk ref.identName globalScope []
    let v1 := Variable.mk v0.name v0.scopeVariableScope (v0.references ++ [ref])
    (VarKey.dummy ref.identName, v1, setDummy dummies ref.identName v1)

/-- Upward walk of getWriteExpr from the identifier: the right side of the
first AssignmentExpression reached whose left side is the walked node, going
up through MemberExpression parents whose object is the walked node, and
none when any other parent shape is reached first. -/
def getWriteExprChain : List ParentStep → Option Expr
  | ParentStep.assign true rhs :: _ => some rhs
  | ParentStep.member true _ :: rest => getWriteExprChain rest
  | _ => none

/-- Translation of getWriteExpr: the own writeExpr of the reference when
present, else the result of the upward chain walk. -/
def getWriteExpr (ref : Reference) : Option Expr :=
  match ref.writeExprOwn with
  | some e => some e
  | none => getWriteExprChain ref.chain

/-- Guard of the markAsRead call in the Identifier handler: the reference is
a read and its write expression, when present, does not sit under an
AssignmentExpression whose operator is the plain equals sign. -/
def readGuard (ref : Reference) : Bool :=
  ref.isRead &&
    !(match getWriteExpr ref with
      | some e => e.parentOperator == some ("=")
      | none => false)

/-- Lookup in the assignmentReferences map, keyed by write expression node
identity. -/
def lookupAssign : List (Nat × List Reference) → Nat → Option (List Reference)
  | [], _ => none
  | pr :: rest, k => if pr.1 = k then some pr.2 else lookupAssign rest k

/-- Push of a reference onto the assignmentReferences entry of a node,
creating the entry when absent. -/
def pushAssign : List (Nat × List Reference) → Nat → Reference → List (Nat × List Reference)
  | [], k, r => [(k, [r])]
  | pr :: rest, k, r =>
    if pr.1 = k then (pr.1, pr.2 ++ [r]) :: rest else pr :: pushAssign rest k r

/-- Deletion of an assignmentReferences entry. -/
def removeAssign (m : List (Nat × List Reference)) (k : Nat) : List (Nat × List Reference) :=
  m.filter (fun pr => !(pr.1 == k))

/-- Mutable state of one run of the rule: the segment store, the pending
assignment references keyed by write expression node, the dummy variable
cache, the stack of code path frames (reduced to whether the frame carries a
reference map, since the current segments are supplied by the CFG builder
with each event), and the reported node ids. -/
structure AnalysisState where
  store : SegmentStore
  assignmentReferences : List (Nat × List Reference)
  dummyVariables : List (String × Variable)
  stack : List Bool
  reports : List Nat

/-- Translation of the Identifier handler: nothing happens when the frame
has no reference map or the node is not a mapped reference; otherwise the
variable is resolved, the reference name and write expression computed, the
variable marked as read on the current segments under the read guard, and
the reference queued for verification when its write expression is the right
child of its parent and the variable is not local without escape. -/
def handleIdentifier (env : Nat → Variable) (globalScope : Nat) (st : AnalysisState)
    (hasMap : Bool) (refLookup : Option Reference) (currentSegments : List Nat) :
    AnalysisState :=
  match (if hasMap then refLookup else none) with
  | none => st
  | some ref =>
    let gv := getVariable env globalScope st.dummyVariables ref
    let referenceName := getReferenceName ref
    let writeExpr := getWriteExpr ref
    let store1 :=
      if readGuard ref = true then SegmentStore.markAsRead st.store currentSegments gv.1
      else st.store
    let assigns1 :=
      match writeExpr with
      | some e =>
        if e.parentRightIsSelf && !(isLocalVariableWithoutEscape gv.2.1 referenceName)
        then pushAssign st.assignmentReferences e.id ref
        else st.assignmentReferences
      | none => st.assignmentReferences
    AnalysisState.mk store1 assigns1 gv.2.2 st.stack st.reports

/-- Verification loop at expression exit: for each queued reference, resolve
its variable (pushing into the dummy cache again, as the source does) and
report when the variable is outdated on the current segments. -/
def verifyRefs (env : Nat → Variable) (globalScope : Nat) (store1 : SegmentStore)
    (currentSegments : List Nat) (nodeId : Nat) :
    List Reference → AnalysisState → AnalysisState
  | [], st => st
  | r :: rest, st =>
    let gv := getVariable env globalScope st.dummyVariables r
    verifyRefs env globalScope store1 currentSegments nodeId rest
      (AnalysisState.mk st.store st.assignmentReferences gv.2.2 st.stack
        (if SegmentStore.isOutdated store1 currentSegments gv.1 = true
         then st.reports ++ [nodeId] else st.reports))

/-- Translation of the expression exit handler: nothing happens without a
reference map; an await or yield exit first makes the current segments
outdated; then the pending references of the exited node, if any, are
removed from the map and verified. -/
def handleExpressionExit (env : Nat → Variable) (globalScope : Nat) (st : AnalysisState)
    (hasMap : Bool) (nodeType : String) (nodeId : Nat) (currentSegments : List Nat) :
    AnalysisState :=
  if hasMap = false then st
  else
    let store1 :=
      if nodeType == ("AwaitExpression") || nodeType == ("YieldExpression")
      then SegmentStore.makeOutdated st.store currentSegments
      else st.store
    match lookupAssign st.assignmentReferences nodeId with
    | none =>
      AnalysisState.mk store1 st.assignmentReferences st.dummyVariables st.stack st.reports
    | some refs =>
      verifyRefs env globalScope store1 currentSegments nodeId refs
        (AnalysisState.mk store1 (removeAssign st.assignmentReferences nodeId)
          st.dummyVariables st.stack st.reports)

/-- Traversal events delivered by the AST visitor and the CFG builder.  The
current segments of the active code path are supplied by the builder with
each event that consumes them; the identifier event carries the lookup
result the reference map of the current frame would produce for the node. -/
inductive Event where
  | codePathStart (resumable : Bool)
  | codePathEnd
  | segmentStart (segment : Segment)
  | identifier (refLookup : Option Reference) (currentSegments : List Nat)
  | expressionExit (nodeType : String) (nodeId : Nat) (currentSegments : List Nat)
deriving DecidableEq

/-- Whether an event is the exit of a suspension expression. -/
def isSuspensionExit : Event → Bool
  | Event.expressionExit t _ _ =>
    t == ("AwaitExpression") || t == ("YieldExpression")
  | _ => false

/-- One traversal step of the rule: code path start pushes a frame, code
path end pops it, segment start runs the initializer, and the identifier
and expression exit events run their handlers with the reference map flag
of the top frame. -/
def step (env : Nat → Variable) (globalScope : Nat) (st : AnalysisState) :
    Event → AnalysisState
  | Event.codePathStart resumable =>
    AnalysisState.mk st.store st.assignmentReferences st.dummyVariables
      (resumable :: st.stack) st.reports
  | Event.codePathEnd =>
    AnalysisState.mk st.store st.assignmentReferences st.dummyVariables
      st.stack.tail st.reports
  | Event.segmentStart seg =>
    AnalysisState.mk (SegmentStore.initSeg st.store seg) st.assignmentReferences
      st.dummyVariables st.stack st.reports
  | Event.identifier refLookup segs =>
    match st.stack with
    | [] => st
    | hasMap :: _ => handleIdentifier env globalScope st hasMap refLookup segs
  | Event.expressionExit t nodeId segs =>
    match st.stack with
    | [] => st
    | hasMap :: _ => handleExpressionExit env globalScope st hasMap t nodeId segs

/-- State at the start of a run: empty store, maps and stack. -/
def initialState : AnalysisState :=
  AnalysisState.mk (fun _ => none) [] [] [] []

/-- Whole run of the rule over a traversal event list. -/
def runAnalysis (env : Nat → Variable) (globalScope : Nat)
    (events : List Event) : AnalysisState :=
  events.foldl (step env globalScope) initialState

/-- Statement helper: some predecessor with state holds the variable in its
outdated set. -/
def anyPrevOutdated (store : SegmentStore) : List Nat → VarKey → Bool
  | [], _ => false
  | p :: rest, v =>
    (match store p with
     | some i => decide (v ∈ i.outdatedReadVariables)
     | none => false) || anyPrevOutdated store rest v

/-- Statement helper: some predecessor with state holds the variable in its
fresh set. -/
def anyPrevFresh (store : SegmentStore) : List Nat → VarKey → Bool
  | [], _ => false
  | p :: rest, v =>
    (match store p with
     | some i => decide (v ∈ i.freshReadVariables)
     | none => false) || anyPrevFresh store rest v

/-- Statement helper: every segment with state has an empty outdated set. -/
def allOutdatedEmpty (store : SegmentStore) : Prop :=
  ∀ s i, store s = some i → i.outdatedReadVariables = ∅

/-- Statement helper: every cached dummy variable carries the global scope,
which is an invariant of the dummy cache since getVariable is its only
writer. -/
def dummiesWF (globalScope : Nat) (dummies : List (String × Variable)) : Prop :=
  ∀ pr ∈ dummies, pr.2.scopeVariableScope = globalScope

/-- Statement helper: the step is a MemberExpression parent with the walked
node as its object. -/
def isMemberObjectStep : ParentStep → Bool
  | ParentStep.member true _ => true
  | _ => false

/-- Statement helper: display name of a member step, with the wildcard for a
JS-falsy property name. -/
def stepName : ParentStep → String
  | ParentStep.member _ p =>
    (match p with
     | some s => if s = "" then ("*") else s
     | none => ("*"))
  | _ => ("*")

/-- Statement helper: the right side when the first remaining ancestor is an
AssignmentExpression with the walked node on its left. -/
def headAssignRhs : List ParentStep → Option Expr
  | ParentStep.assign true rhs :: _ => some rhs
  | _ => none

/-- Modelled from the claim text of C5: any read is marked, and the only
stated exception, the pure equals left hand write of the bare identifier
itself, is never a read, so the predicate reduces to the read flag. -/
def claimC5MarkPredicate (ref : Reference) : Bool := ref.isRead

/-- Modelled from the claim text of C6: the member chain rule applies only
when the assignment reached by the walk is a plain equals assignment. -/
def claimC6Chain : List ParentStep → Option Expr
  | ParentStep.assign true rhs :: _ =>
    if rhs.parentOperator == some ("=") then some rhs else none
  | ParentStep.member true _ :: rest => claimC6Chain rest
  | _ => none

/-- Modelled from the claim text of C6: the own write expression first, else
the plain equals member chain rule. -/
def claimC6GetWriteExpr (ref : Reference) : Option Expr :=
  match ref.writeExprOwn with
  | some e => some e
  | none => claimC6Chain ref.chain

/-- Modelled from the claim text of C7: the wildcard appears exactly when
the property is computed and not statically known, while a statically known
name is used verbatim. -/
def claimC7ChainNames : List ParentStep → List String
  | ParentStep.member true p :: rest =>
    (match p with
     | some s => s
     | none => ("*")) :: claimC7ChainNames rest
  | _ => []

/-- Modelled from the claim text of C7: dotted reference name with the
wildcard exactly for unknown properties. -/
def claimC7ReferenceName (ref : Reference) : String :=
  String.intercalate (".") (ref.identName :: claimC7ChainNames ref.chain)

/-- Concrete environment for witnesses: every binding resolves to a variable
with no recorded references, which is trivially local without escape. -/
def envW : Nat → Variable := fun _ => Variable.mk ("loc") 0 []

/-- Concrete right side expression of a plain equals assignment. -/
def rhsEq : Expr := Expr.mk 9 (some ("=")) true

/-- Concrete right side expression of a compound assignment. -/
def rhsPlus : Expr := Expr.mk 7 (some ("+=")) true

/-- Concrete reference: the chain head object read on the left side of a
plain equals member assignment, as in a.b = expr. -/
def cref5 : Reference :=
  Reference.mk ("a")
    [ParentStep.member true (some ("b")), ParentStep.assign true rhsEq]
    true none (some 0) 1

/-- Concrete analysis state with one initialized empty segment. -/
def st5 : AnalysisState :=
  AnalysisState.mk (fun s => if s = 0 then some (SegState.mk ∅ ∅) else none)
    [] [] [true] []

/-- Concrete reference: the chain head object read on the left side of a
compound member assignment, as in a.b += expr. -/
def cref6 : Reference :=
  Reference.mk ("a")
    [ParentStep.member true (some ("b")), ParentStep.assign true rhsPlus]
    true none (some 0) 1

/-- Concrete reference: a member access whose property name is statically
known to be the empty string. -/
def cref7 : Reference :=
  Reference.mk ("a") [ParentStep.member true (some (""))] false none none 0

/-- Concrete unresolved reference assigned through a plain equals assignment
inside a function scope distinct from the global scope. -/
def ref9 : Reference :=
  Reference.mk ("u") [ParentStep.assign true rhsEq] true none none 1

/-- Concrete second unresolved reference with the same name. -/
def ref9b : Reference :=
  Reference.mk ("u") [] false none none 2

/-- Concrete resolved reference for the locality witness. -/
def refW2 : Reference :=
  Reference.mk ("loc") [ParentStep.assign true rhsEq] true none (some 0) 0

/-- Concrete variable key for store witnesses. -/
def kW : VarKey := VarKey.dummy ("w")

/-- Concrete store for witnesses: segment zero holds the key in both sets. -/
def storeW : SegmentStore :=
  fun s => if s = 0 then some (SegState.mk (insert kW ∅) (insert kW ∅)) else none

/-- Concrete event list for a run without suspensions: a resumable code path
with one segment, one escaping unresolved assignment reference, and the exit
of its write expression. -/
def eventsW : List Event :=
  [Event.codePathStart true,
   Event.segmentStart (Segment.mk 0 []),
   Event.identifier (some ref9) [0],
   Event.expressionExit ("AssignmentExpression") 9 [0]]

/-- Statement helper: the dummy variable getVariable produces for an
unresolved reference, with the current reference already pushed. -/
def dummyVar (globalScope : Nat) (dummies : List (String × Variable))
    (ref : Reference) : Variable :=
  let v0 :=
    match lookupDummy dummies ref.identName with
    | some v => v
    | none => Variable.mk ref.identName globalScope []
  Variable.mk v0.name v0.scopeVariableScope (v0.references ++ [ref])

/-- Concrete plain read reference with no surrounding assignment. -/
def refRead : Reference := Reference.mk ("r") [] true none (some 0) 0

/-! Lemmas about the segment store operations. -/

theorem setSeg_same (store : SegmentStore) (s : Nat) (v : SegState) :
    setSeg store s v s = some v := by
  simp [setSeg]

theorem setSeg_other (store : SegmentStore) (s t : Nat) (v : SegState) (h : t ≠ s) :
    setSeg store s v t = store t := by
  simp [setSeg, h]

theorem markAsRead_not_mem :
    ∀ (segs : List Nat) (store : SegmentStore) (v : VarKey) (t : Nat),
      t ∉ segs → SegmentStore.markAsRead store segs v t = store t := by
  intro segs
  induction segs with
  | nil => intro store v t _; rfl
  | cons s rest ih =>
    intro store v t ht
    have hts : t ≠ s := fun h => ht (h ▸ List.mem_cons_self s rest)
    have htr : t ∉ rest := fun h => ht (List.mem_cons_of_mem s h)
    cases hs : store s with
    | none =>
      simp only [SegmentStore.markAsRead, hs]
      exact ih store v t htr
    | some i =>
      simp only [SegmentStore.markAsRead, hs]
      rw [ih _ v t htr, setSeg_other _ _ _ _ hts]

theorem markAsRead_mem :
    ∀ (segs : List Nat) (store : SegmentStore) (v : VarKey) (t : Nat) (i : SegState),
      store t = some i → t ∈ segs →
      SegmentStore.markAsRead store segs v t
        = some (SegState.mk i.outdatedReadVariables (insert v i.freshReadVariables)) := by
  intro segs
  induction segs with
  | nil => intro store v t i _ ht; exact absurd ht (List.not_mem_nil t)
  | cons s rest ih =>
    intro store v t i hst ht
    by_cases hts : t = s
    · subst hts
      simp only [SegmentStore.markAsRead, hst]
      by_cases htr : t ∈ rest
      · rw [ih _ v t _ (setSeg_same _ _ _) htr]
        simp
      · rw [markAsRead_not_mem rest _ v t htr, setSeg_same]
    · have htr : t ∈ rest := by
        cases List.mem_cons.mp ht with
        | inl h => exact absurd h hts
        | inr h => exact h
      cases hs : store s with
      | none =>
        simp only [SegmentStore.markAsRead, hs]
        exact ih _ v t i hst htr
      | some j =>
        simp only [SegmentStore.markAsRead, hs]
        refine ih _ v t i ?_ htr
        rw [setSeg_other _ _ _ _ hts]
        exact hst

theorem markAsRead_none :
    ∀ (segs : List Nat) (store : SegmentStore) (v : VarKey) (t : Nat),
      store t = none → SegmentStore.markAsRead store segs v t = none := by
  intro segs
  induction segs with
  | nil => intro store v t h; exact h
  | cons s rest ih =>
    intro store v t h
    cases hs : store s with
    | none =>
      simp only [SegmentStore.markAsRead, hs]
      exact ih store v t h
    | some i =>
      simp only [SegmentStore.markAsRead, hs]
      refine ih _ v t ?_
      have hts : t ≠ s := fun he => by rw [he, hs] at h; cases h
      rw [setSeg_other _ _ _ _ hts]
      exact h

theorem makeOutdated_not_mem :
    ∀ (segs : List Nat) (store : SegmentStore) (t : Nat),
      t ∉ segs → SegmentStore.makeOutdated store segs t = store t := by
  intro segs
  induction segs with
  | nil => intro store t _; rfl
  | cons s rest ih =>
    intro store t ht
    have hts : t ≠ s := fun h => ht (h ▸ List.mem_cons_self s rest)
    have htr : t ∉ rest := fun h => ht (List.mem_cons_of_mem s h)
    cases hs : store s with
    | none =>
      simp only [SegmentStore.makeOutdated, hs]
      exact ih store t htr
    | some i =>
      simp only [SegmentStore.makeOutdated, hs]
      rw [ih _ t htr, setSeg_other _ _ _ _ hts]

theorem makeOutdated_mem :
    ∀ (segs : List Nat) (store : SegmentStore) (t : Nat) (i : SegState),
      store t = some i → t ∈ segs →
      SegmentStore.makeOutdated store segs t
        = some (SegState.mk (i.outdatedReadVariables ∪ i.freshReadVariables) ∅) := by
  intro segs
  induction segs with
  | nil => intro store t i _ ht; exact absurd ht (List.not_mem_nil t)
  | cons s rest ih =>
    intro store t i hst ht
    by_cases hts : t = s
    · subst hts
      simp only [SegmentStore.makeOutdated, hst]
      by_cases htr : t ∈ rest
      · rw [ih _ t _ (setSeg_same _ _ _) htr]
        simp
      · rw [makeOutdated_not_mem rest _ t htr, setSeg_same]
    · have htr : t ∈ rest := by
        cases List.mem_cons.mp ht with
        | inl h => exact absurd h hts
        | inr h => exact h
      cases hs : store s with
      | none =>
        simp only [SegmentStore.makeOutdated, hs]
        exact ih _ t i hst htr
      | some j =>
        simp only [SegmentStore.makeOutdated, hs]
        refine ih _ t i ?_ htr
        rw [setSeg_other _ _ _ _ hts]
        exact hst

theorem makeOutdated_none :
    ∀ (segs : List Nat) (store : SegmentStore) (t : Nat),
      store t = none → SegmentStore.makeOutdated store segs t = none := by
  intro segs
  induction segs with
  | nil => intro store t h; exact h
  | cons s rest ih =>
    intro store t h
    cases hs : store s with
    | none =>
      simp only [SegmentStore.makeOutdated, hs]
      exact ih store t h
    | some i =>
      simp only [SegmentStore.makeOutdated, hs]
      refine ih _ t ?_
      have hts : t ≠ s := fun he => by rw [he, hs] at h; cases h
      rw [setSeg_other _ _ _ _ hts]
      exact h

theorem isOutdated_cons_none (store : SegmentStore) (s : Nat) (rest : List Nat)
    (v : VarKey) (h : store s = none) :
    SegmentStore.isOutdated store (s :: rest) v = SegmentStore.isOutdated store rest v := by
  simp only [SegmentStore.isOutdated, h]

theorem joinFold_acc_subset :
    ∀ (prevs : List Nat) (store : SegmentStore) (acc : SegState),
      acc.outdatedReadVariables ⊆ (joinFold store prevs acc).outdatedReadVariables ∧
      acc.freshReadVariables ⊆ (joinFold store prevs acc).freshReadVariables := by
  intro prevs
  induction prevs with
  | nil => intro store acc; exact ⟨Finset.Subset.refl _, Finset.Subset.refl _⟩
  | cons p rest ih =>
    intro store acc
    cases hp : store p with
    | none =>
      simp only [joinFold, hp]
      exact ih store acc
    | some i =>
      simp only [joinFold, hp]
      have h2 := ih store
        (SegState.mk (acc.outdatedReadVariables ∪ i.outdatedReadVariables)
          (acc.freshReadVariables ∪ i.freshReadVariables))
      exact ⟨Finset.Subset.trans Finset.subset_union_left h2.1,
        Finset.Subset.trans Finset.subset_union_left h2.2⟩

theorem joinFold_pred_subset :
    ∀ (prevs : List Nat) (store : SegmentStore) (acc : SegState) (p : Nat) (i : SegState),
      p ∈ prevs → store p = some i →
      i.outdatedReadVariables ⊆ (joinFold store prevs acc).outdatedReadVariables ∧
      i.freshReadVariables ⊆ (joinFold store prevs acc).freshReadVariables := by
  intro prevs
  induction prevs with
  | nil => intro store acc p i hp _; exact absurd hp (List.not_mem_nil p)
  | cons q rest ih =>
    intro store acc p i hp hstore
    by_cases hpq : p = q
    · subst hpq
      simp only [joinFold, hstore]
      have h2 := joinFold_acc_subset rest store
        (SegState.mk (acc.outdatedReadVariables ∪ i.outdatedReadVariables)
          (acc.freshReadVariables ∪ i.freshReadVariables))
      exact ⟨Finset.Subset.trans Finset.subset_union_right h2.1,
        Finset.Subset.trans Finset.subset_union_right h2.2⟩
    · have hpr : p ∈ rest := by
        cases List.mem_cons.mp hp with
        | inl h => exact absurd h hpq
        | inr h => exact h
      cases hq : store q with
      | none =>
        simp only [joinFold, hq]
        exact ih store acc p i hpr hstore
      | some j =>
        simp only [joinFold, hq]
        exact ih store _ p i hpr hstore

theorem joinFold_outdated_iff :
    ∀ (prevs : List Nat) (store : SegmentStore) (acc : SegState) (v : VarKey),
      (v ∈ (joinFold store prevs acc).outdatedReadVariables
        ↔ v ∈ acc.outdatedReadVariables ∨ anyPrevOutdated store prevs v = true) := by
  intro prevs
  induction prevs with
  | nil =>
    intro store acc v
    simp [joinFold, anyPrevOutdated]
  | cons p rest ih =>
    intro store acc v
    cases hp : store p with
    | none =>
      simp only [joinFold, anyPrevOutdated, hp]
      rw [ih store acc v]
      simp
    | some i =>
      simp only [joinFold, anyPrevOutdated, hp]
      rw [ih store _ v]
      simp only [Finset.mem_union, Bool.or_eq_true, decide_eq_true_eq]
      tauto

theorem joinFold_fresh_iff :
    ∀ (prevs : List Nat) (store : SegmentStore) (acc : SegState) (v : VarKey),
      (v ∈ (joinFold store prevs acc).freshReadVariables
        ↔ v ∈ acc.freshReadVariables ∨ anyPrevFresh store prevs v = true) := by
  intro prevs
  induction prevs with
  | nil =>
    intro store acc v
    simp [joinFold, anyPrevFresh]
  | cons p rest ih =>
    intro store acc v
    cases hp : store p with
    | none =>
      simp only [joinFold, anyPrevFresh, hp]
      rw [ih store acc v]
      simp
    | some i =>
      simp only [joinFold, anyPrevFresh, hp]
      rw [ih store _ v]
      simp only [Finset.mem_union, Bool.or_eq_true, decide_eq_true_eq]
      tauto

theorem joinFold_cons_none (store : SegmentStore) (s : Nat) (prevs : List Nat)
    (acc : SegState) (h : store s = none) :
    joinFold store (s :: prevs) acc = joinFold store prevs acc := by
  simp only [joinFold, h]

/-! Lemmas for the no-suspension invariant: every outdated set stays empty. -/

theorem aoe_setSeg (store : SegmentStore) (s : Nat) (v : SegState)
    (h : allOutdatedEmpty store) (hv : v.outdatedReadVariables = ∅) :
    allOutdatedEmpty (setSeg store s v) := by
  intro t j hj
  by_cases hts : t = s
  · subst hts
    rw [setSeg_same] at hj
    cases hj
    exact hv
  · rw [setSeg_other _ _ _ _ hts] at hj
    exact h t j hj

theorem aoe_markAsRead :
    ∀ (segs : List Nat) (store : SegmentStore) (v : VarKey),
      allOutdatedEmpty store → allOutdatedEmpty (SegmentStore.markAsRead store segs v) := by
  intro segs
  induction segs with
  | nil => intro store v h; exact h
  | cons s rest ih =>
    intro store v h
    cases hs : store s with
    | none =>
      simp only [SegmentStore.markAsRead, hs]
      exact ih store v h
    | some i =>
      simp only [SegmentStore.markAsRead, hs]
      exact ih _ v (aoe_setSeg _ _ _ h (h s i hs))

theorem joinFold_outdated_empty :
    ∀ (prevs : List Nat) (store : SegmentStore) (acc : SegState),
      allOutdatedEmpty store → acc.outdatedReadVariables = ∅ →
      (joinFold store prevs acc).outdatedReadVariables = ∅ := by
  intro prevs
  induction prevs with
  | nil => intro store acc _ hacc; exact hacc
  | cons p rest ih =>
    intro store acc h hacc
    cases hp : store p with
    | none =>
      simp only [joinFold, hp]
      exact ih store acc h hacc
    | some i =>
      simp only [joinFold, hp]
      refine ih store _ h ?_
      simp [hacc, h p i hp]

theorem aoe_initSeg (store : SegmentStore) (seg : Segment)
    (h : allOutdatedEmpty store) : allOutdatedEmpty (SegmentStore.initSeg store seg) := by
  unfold SegmentStore.initSeg
  exact aoe_setSeg _ _ _ h (joinFold_outdated_empty _ _ _ h rfl)

theorem isOutdated_false_of_empty :
    ∀ (segs : List Nat) (store : SegmentStore) (v : VarKey),
      allOutdatedEmpty store → SegmentStore.isOutdated store segs v = false := by
  intro segs
  induction segs with
  | nil => intro store v _; rfl
  | cons s rest ih =>
    intro store v h
    cases hs : store s with
    | none =>
      simp only [SegmentStore.isOutdated, hs]
      exact ih store v h
    | some i =>
      simp only [SegmentStore.isOutdated, hs, h s i hs]
      simpa using ih store v h

theorem verifyRefs_store :
    ∀ (refs : List Reference) (env : Nat → Variable) (g : Nat) (store1 : SegmentStore)
      (segs : List Nat) (nid : Nat) (st : AnalysisState),
      (verifyRefs env g store1 segs nid refs st).store = st.store := by
  intro refs
  induction refs with
  | nil => intro env g store1 segs nid st; rfl
  | cons r rest ih =>
    intro env g store1 segs nid st
    simp only [verifyRefs]
    rw [ih]

theorem verifyRefs_reports :
    ∀ (refs : List Reference) (env : Nat → Variable) (g : Nat) (store1 : SegmentStore)
      (segs : List Nat) (nid : Nat) (st : AnalysisState),
      allOutdatedEmpty store1 →
      (verifyRefs env g store1 segs nid refs st).reports = st.reports := by
  intro refs
  induction refs with
  | nil => intro env g store1 segs nid st _; rfl
  | cons r rest ih =>
    intro env g store1 segs nid st h
    simp only [verifyRefs]
    rw [ih _ _ _ _ _ _ h]
    simp [isOutdated_false_of_empty _ _ _ h]

theorem step_inv (env : Nat → Variable) (g : Nat) (st : AnalysisState) (e : Event)
    (he : isSuspensionExit e = false)
    (h1 : allOutdatedEmpty st.store) (h2 : st.reports = []) :
    allOutdatedEmpty (step env g st e).store ∧ (step env g st e).reports = [] := by
  cases e with
  | codePathStart b => exact ⟨h1, h2⟩
  | codePathEnd => exact ⟨h1, h2⟩
  | segmentStart seg => exact ⟨aoe_initSeg _ _ h1, h2⟩
  | identifier rl segs =>
    cases hst : st.stack with
    | nil => simp only [step, hst]; exact ⟨h1, h2⟩
    | cons hm tl =>
      simp only [step, hst]
      cases hm with
      | false => exact ⟨h1, h2⟩
      | true =>
        cases rl with
        | none => exact ⟨h1, h2⟩
        | some ref =>
          simp only [handleIdentifier, if_pos trivial]
          refine ⟨?_, h2⟩
          by_cases hg : readGuard ref = true
          · rw [if_pos hg]
            exact aoe_markAsRead _ _ _ h1
          · rw [if_neg hg]
            exact h1
  | expressionExit t nid segs =>
    cases hst : st.stack with
    | nil => simp only [step, hst]; exact ⟨h1, h2⟩
    | cons hm tl =>
      simp only [step, hst]
      cases hm with
      | false => exact ⟨h1, h2⟩
      | true =>
        have hsusp : (t == ("AwaitExpression") || t == ("YieldExpression")) = false := by
          simpa [isSuspensionExit] using he
        have hnot : ¬(true = false) := by simp
        have hnot2 : ¬((t == ("AwaitExpression") || t == ("YieldExpression")) = true) := by
          simp [hsusp]
        simp only [handleExpressionExit, if_neg hnot, if_neg hnot2]
        cases hl : lookupAssign st.assignmentReferences nid with
        | none =>
          simp only [hl]
          exact ⟨h1, h2⟩
        | some refs =>
          simp only [hl]
          constructor
          · rw [verifyRefs_store]
            exact h1
          · rw [verifyRefs_reports _ _ _ _ _ _ _ h1]
            exact h2

theorem run_inv :
    ∀ (events : List Event) (env : Nat → Variable) (g : Nat) (st : AnalysisState),
      (∀ e ∈ events, isSuspensionExit e = false) →
      allOutdatedEmpty st.store → st.reports = [] →
      allOutdatedEmpty (events.foldl (step env g) st).store ∧
        (events.foldl (step env g) st).reports = [] := by
  intro events
  induction events with
  | nil => intro env g st _ h1 h2; exact ⟨h1, h2⟩
  | cons e rest ih =>
    intro env g st h h1 h2
    have he : isSuspensionExit e = false := h e (List.mem_cons_self e rest)
    have hrest : ∀ x ∈ rest, isSuspensionExit x = false :=
      fun x hx => h x (List.mem_cons_of_mem e hx)
    have hstep := step_inv env g st e he h1 h2
    simpa using ih env g (step env g st e) hrest hstep.1 hstep.2

/-! Claim theorems. -/

/-- C1: a run of the analysis over a traversal that never exits an
AwaitExpression or a YieldExpression reports no violation: makeOutdated is
invoked only on such exits, so every outdated set stays empty throughout the
run, isOutdated is false for every pending assignment reference, and no
report is emitted. -/
theorem analysis_no_suspension_no_reports (env : Nat → Variable) (globalScope : Nat)
    (events : List Event) (h : ∀ e ∈ events, isSuspensionExit e = false) :
    (runAnalysis env globalScope events).reports = [] := by
  have h0 : allOutdatedEmpty initialState.store := by
    intro s i hi
    cases hi
  exact (run_inv events env globalScope initialState h h0 rfl).2

/-- Witness for C1 at a concrete suspension-free trace containing an
escaping unresolved assignment reference and the exit of its write
expression. -/
theorem analysis_no_suspension_no_reports_witness :
    (runAnalysis envW 0 eventsW).reports = [] :=
  analysis_no_suspension_no_reports envW 0 eventsW (by decide)

/-- C3: join monotonicity of the segment initializer: the whole outdated set
of any predecessor with state at the moment the segment is initialized is
included in the outdated set stored for the new segment, and likewise the
whole fresh set of that predecessor is included in the new fresh set, so in
particular every variable outdated on any predecessor is outdated on the new
segment and outdatedness is never forgotten across a join. -/
theorem initSeg_join_monotone (store : SegmentStore) (seg : Segment) (p : Nat)
    (i : SegState) (hp : p ∈ seg.prevSegments) (hstore : store p = some i) :
    (SegmentStore.initSeg store seg) seg.id = some (joinStates store seg.prevSegments) ∧
    i.outdatedReadVariables ⊆ (joinStates store seg.prevSegments).outdatedReadVariables ∧
    i.freshReadVariables ⊆ (joinStates store seg.prevSegments).freshReadVariables := by
  have hsub := joinFold_pred_subset seg.prevSegments store (SegState.mk ∅ ∅) p i hp hstore
  exact ⟨setSeg_same _ _ _, hsub.1, hsub.2⟩

/-- Witness for C3 at a concrete store with one predecessor holding one
variable in both sets. -/
theorem initSeg_join_monotone_witness :
    (SegmentStore.initSeg storeW (Segment.mk 1 [0])) 1 = some (joinStates storeW [0]) ∧
    insert kW ∅ ⊆ (joinStates storeW [0]).outdatedReadVariables ∧
    insert kW ∅ ⊆ (joinStates storeW [0]).freshReadVariables :=
  initSeg_join_monotone storeW (Segment.mk 1 [0]) 0 (SegState.mk (insert kW ∅) (insert kW ∅))
    (by decide) (by decide)

/-- C4: postcondition of makeOutdated: every active segment with state gets
the union of its previous outdated and fresh sets as its outdated set and an
empty fresh set, while segments not in the active list are unchanged. -/
theorem makeOutdated_postcondition (store : SegmentStore) (segs : List Nat)
    (s t : Nat) (i : SegState) (hs : store s = some i) (hmem : s ∈ segs)
    (hout : t ∉ segs) :
    SegmentStore.makeOutdated store segs s
      = some (SegState.mk (i.outdatedReadVariables ∪ i.freshReadVariables) ∅) ∧
    SegmentStore.makeOutdated store segs t = store t :=
  ⟨makeOutdated_mem segs store s i hs hmem, makeOutdated_not_mem segs store t hout⟩

/-- Witness for C4 at a concrete store with one active segment holding one
variable in both sets. -/
theorem makeOutdated_postcondition_witness :
    SegmentStore.makeOutdated storeW [0] 0
      = some (SegState.mk (insert kW ∅ ∪ insert kW ∅) ∅) ∧
    SegmentStore.makeOutdated storeW [0] 5 = storeW 5 :=
  makeOutdated_postcondition storeW [0] 0 5 (SegState.mk (insert kW ∅) (insert kW ∅))
    (by decide) (by decide) (by decide)

/-- C10: totality on uninitialized segments: a segment without state is
silently skipped by markAsRead, makeOutdated and isOutdated, the initializer
ignores predecessors without state, and markAsRead and makeOutdated never
create state for such a segment; every operation is a total function. -/
theorem segment_ops_skip_uninitialized (store : SegmentStore) (s : Nat)
    (segs : List Nat) (v : VarKey) (segId : Nat) (prevs : List Nat)
    (h : store s = none) :
    SegmentStore.markAsRead store (s :: segs) v = SegmentStore.markAsRead store segs v ∧
    SegmentStore.makeOutdated store (s :: segs) = SegmentStore.makeOutdated store segs ∧
    SegmentStore.isOutdated store (s :: segs) v = SegmentStore.isOutdated store segs v ∧
    SegmentStore.initSeg store (Segment.mk segId (s :: prevs))
      = SegmentStore.initSeg store (Segment.mk segId prevs) ∧
    SegmentStore.markAsRead store segs v s = none ∧
    SegmentStore.makeOutdated store segs s = none := by
  refine ⟨?_, ?_, ?_, ?_, ?_, ?_⟩
  · simp only [SegmentStore.markAsRead, h]
  · simp only [SegmentStore.makeOutdated, h]
  · exact isOutdated_cons_none store s segs v h
  · unfold SegmentStore.initSeg
    unfold joinStates
    rw [joinFold_cons_none store s prevs _ h]
  · exact markAsRead_none segs store v s h
  · exact makeOutdated_none segs store s h

/-- Witness for C10 at a concrete store without state at segment two. -/
theorem segment_ops_skip_uninitialized_witness :
    SegmentStore.markAsRead storeW (2 :: [0]) kW = SegmentStore.markAsRead storeW [0] kW ∧
    SegmentStore.makeOutdated storeW (2 :: [0]) = SegmentStore.makeOutdated storeW [0] ∧
    SegmentStore.isOutdated storeW (2 :: [0]) kW = SegmentStore.isOutdated storeW [0] kW ∧
    SegmentStore.initSeg storeW (Segment.mk 3 (2 :: [0]))
      = SegmentStore.initSeg storeW (Segment.mk 3 [0]) ∧
    SegmentStore.markAsRead storeW [0] kW 2 = none ∧
    SegmentStore.makeOutdated storeW [0] 2 = none :=
  segment_ops_skip_uninitialized storeW 2 [0] kW 3 [0] (by decide)

/-- C8: segment state determination and frame: at the moment a segment is
initialized its outdated and fresh sets hold exactly the variables present
in the corresponding set of some predecessor with state, the initializer
touches no other key, and markAsRead and makeOutdated leave every segment
outside the given active list unchanged. -/
theorem segment_state_determination_and_frame (store : SegmentStore) (seg : Segment)
    (s : Nat) (segs : List Nat) (v : VarKey) (h3 : s ≠ seg.id) (h4 : s ∉ segs) :
    (SegmentStore.initSeg store seg) seg.id = some (joinStates store seg.prevSegments) ∧
    (v ∈ (joinStates store seg.prevSegments).outdatedReadVariables
      ↔ anyPrevOutdated store seg.prevSegments v = true) ∧
    (v ∈ (joinStates store seg.prevSegments).freshReadVariables
      ↔ anyPrevFresh store seg.prevSegments v = true) ∧
    (SegmentStore.initSeg store seg) s = store s ∧
    SegmentStore.markAsRead store segs v s = store s ∧
    SegmentStore.makeOutdated store segs s = store s := by
  refine ⟨setSeg_same _ _ _, ?_, ?_, ?_, ?_, ?_⟩
  · rw [joinStates, joinFold_outdated_iff]
    simp
  · rw [joinStates, joinFold_fresh_iff]
    simp
  · exact setSeg_other _ _ _ _ h3
  · exact markAsRead_not_mem segs store v s h4
  · exact makeOutdated_not_mem segs store s h4

/-- Witness for C8 at a concrete store, segment and outside key. -/
theorem segment_state_determination_and_frame_witness :
    (SegmentStore.initSeg storeW (Segment.mk 1 [0])) 1 = some (joinStates storeW [0]) ∧
    (kW ∈ (joinStates storeW [0]).outdatedReadVariables
      ↔ anyPrevOutdated storeW [0] kW = true) ∧
    (kW ∈ (joinStates storeW [0]).freshReadVariables
      ↔ anyPrevFresh storeW [0] kW = true) ∧
    (SegmentStore.initSeg storeW (Segment.mk 1 [0])) 5 = storeW 5 ∧
    SegmentStore.markAsRead storeW [0] kW 5 = storeW 5 ∧
    SegmentStore.makeOutdated storeW [0] 5 = storeW 5 :=
  segment_state_determination_and_frame storeW (Segment.mk 1 [0]) 5 [0] kW
    (by decide) (by decide)

/-! Lemmas about getVariable and the dummy cache. -/

theorem getVariable_key (env : Nat → Variable) (g : Nat)
    (dummies : List (String × Variable)) (ref : Reference) :
    (getVariable env g dummies ref).1 = varKeyOf ref := by
  cases hr : ref.resolved <;> simp [getVariable, varKeyOf, hr]

theorem getVariable_unresolved (env : Nat → Variable) (g : Nat)
    (d : List (String × Variable)) (ref : Reference) (h : ref.resolved = none) :
    getVariable env g d ref
      = (VarKey.dummy ref.identName, dummyVar g d ref,
          setDummy d ref.identName (dummyVar g d ref)) := by
  simp [getVariable, dummyVar, h]

theorem lookupDummy_scope :
    ∀ (d : List (String × Variable)) (g : Nat) (n : String) (v : Variable),
      dummiesWF g d → lookupDummy d n = some v → v.scopeVariableScope = g := by
  intro d
  induction d with
  | nil => intro g n v _ h; cases h
  | cons pr rest ih =>
    intro g n v hwf h
    by_cases hn : pr.1 = n
    · simp only [lookupDummy, if_pos hn] at h
      cases h
      exact hwf pr (List.mem_cons_self pr rest)
    · simp only [lookupDummy, if_neg hn] at h
      exact ih g n v (fun q hq => hwf q (List.mem_cons_of_mem pr hq)) h

theorem all_false_of_mem {α : Type} (l : List α) (p : α → Bool) (a : α)
    (ha : a ∈ l) (hp : p a = false) : l.all p = false := by
  cases hall : l.all p with
  | false => rfl
  | true =>
    have h2 := List.all_eq_true.mp hall a ha
    rw [hp] at h2
    cases h2

theorem setDummy_lookup_same :
    ∀ (d : List (String × Variable)) (n : String) (v : Variable),
      lookupDummy (setDummy d n v) n = some v := by
  intro d
  induction d with
  | nil => intro n v; simp [setDummy, lookupDummy]
  | cons pr rest ih =>
    intro n v
    by_cases hn : pr.1 = n
    · simp [setDummy, lookupDummy, hn]
    · simp [setDummy, lookupDummy, hn, ih]

theorem pushAssign_lookup :
    ∀ (m : List (Nat × List Reference)) (k : Nat) (r : Reference),
      lookupAssign (pushAssign m k r) k = some ((lookupAssign m k).getD [] ++ [r]) := by
  intro m
  induction m with
  | nil => intro k r; simp [pushAssign, lookupAssign]
  | cons pr rest ih =>
    intro k r
    by_cases hk : pr.1 = k
    · simp [pushAssign, lookupAssign, hk]
    · simp [pushAssign, lookupAssign, hk, ih]

theorem dummyVar_scope (g : Nat) (d : List (String × Variable)) (ref : Reference)
    (hwf : dummiesWF g d) : (dummyVar g d ref).scopeVariableScope = g := by
  unfold dummyVar
  cases hl : lookupDummy d ref.identName with
  | none => simp [hl]
  | some v => simpa [hl] using lookupDummy_scope d g ref.identName v hwf hl

theorem dummyVar_not_local (g : Nat) (d : List (String × Variable)) (ref : Reference)
    (hwf : dummiesWF g d) (h2 : ¬(ref.fromVariableScope = g)) :
    isLocalVariableWithoutEscape (dummyVar g d ref) (getReferenceName ref) = false := by
  unfold isLocalVariableWithoutEscape
  apply all_false_of_mem _ _ ref
  · apply List.mem_filter.mpr
    refine ⟨?_, by simp⟩
    show ref ∈ (dummyVar g d ref).references
    unfold dummyVar
    simp
  · rw [dummyVar_scope g d ref hwf]
    simp [h2]

/-- C2: an assignment whose target variable is local without escape under
its computed reference name is never queued for verification: the Identifier
handler leaves the pending assignment map unchanged, so no violation can
ever be reported for this reference, regardless of suspensions. -/
theorem local_without_escape_not_registered (env : Nat → Variable) (g : Nat)
    (st : AnalysisState) (ref : Reference) (segs : List Nat)
    (h : isLocalVariableWithoutEscape (getVariable env g st.dummyVariables ref).2.1
          (getReferenceName ref) = true) :
    (handleIdentifier env g st true (some ref) segs).assignmentReferences
      = st.assignmentReferences := by
  simp only [handleIdentifier, if_pos trivial]
  cases hw : getWriteExpr ref with
  | none => rfl
  | some e =>
    simp only [hw, h]
    simp

/-- Witness for C2 at a concrete resolved reference whose variable has no
recorded references and is therefore local without escape. -/
theorem local_without_escape_not_registered_witness :
    (handleIdentifier envW 0 initialState true (some refW2) []).assignmentReferences
      = initialState.assignmentReferences :=
  local_without_escape_not_registered envW 0 initialState refW2 [] (by decide)

/-- C5 counterexample: the chain head object read of a.b = expr satisfies
the claim predicate (it is a read and not a pure equals write of a bare
identifier), yet the handler does not mark it as read: the fresh set of the
active segment stays empty, although a markAsRead call would have inserted
the variable. -/
theorem chain_head_read_not_marked_cex :
    claimC5MarkPredicate cref5 = true ∧
    (handleIdentifier envW 0 st5 true (some cref5) [0]).store 0
      = some (SegState.mk ∅ ∅) ∧
    SegmentStore.markAsRead st5.store [0] (varKeyOf cref5) 0
      = some (SegState.mk ∅ (insert (varKeyOf cref5) ∅)) := by
  refine ⟨rfl, ?_, ?_⟩ <;> decide

/-- C5 amended: markAsRead is called for exactly the references that are
reads whose write expression, when present, is not under a plain equals
assignment; on every active segment with state, the fresh set gains the
variable exactly under this guard, and the outdated set is untouched.  In
particular the chain head object read of a.b = expr is not marked. -/
theorem markAsRead_guard_characterization (env : Nat → Variable) (g : Nat)
    (st : AnalysisState) (ref : Reference) (segs : List Nat) (s : Nat) (i : SegState)
    (h1 : st.store s = some i) (h2 : s ∈ segs) :
    (handleIdentifier env g st true (some ref) segs).store s
      = some (SegState.mk i.outdatedReadVariables
          (if readGuard ref = true then insert (varKeyOf ref) i.freshReadVariables
           else i.freshReadVariables)) := by
  simp only [handleIdentifier, if_pos trivial]
  by_cases hg : readGuard ref = true
  · rw [if_pos hg, if_pos hg, getVariable_key]
    exact markAsRead_mem segs st.store (varKeyOf ref) s i h1 h2
  · rw [if_neg hg, if_neg hg, h1]

/-- Witness for C5 amended at a concrete plain read on one active segment. -/
theorem markAsRead_guard_characterization_witness :
    (handleIdentifier envW 0 st5 true (some refRead) [0]).store 0
      = some (SegState.mk (∅ : Finset VarKey)
          (if readGuard refRead = true then insert (varKeyOf refRead) (∅ : Finset VarKey)
           else (∅ : Finset VarKey))) :=
  markAsRead_guard_characterization envW 0 st5 refRead [0] 0 (SegState.mk ∅ ∅)
    (by decide) (by decide)

/-- C6 counterexample: for the chain head object read of a compound member
assignment a.b += expr the source walk yields the right side, while the
claim, which restricts the member chain rule to plain equals assignments,
yields none. -/
theorem getWriteExpr_compound_chain_cex :
    getWriteExpr cref6 = some rhsPlus ∧
    claimC6GetWriteExpr cref6 = none ∧
    getWriteExpr cref6 ≠ claimC6GetWriteExpr cref6 := by
  refine ⟨rfl, rfl, ?_⟩
  decide

theorem getWriteExprChain_dropWhile :
    ∀ l : List ParentStep,
      getWriteExprChain l = headAssignRhs (l.dropWhile isMemberObjectStep) := by
  intro l
  induction l with
  | nil => rfl
  | cons h rest ih =>
    cases h with
    | member isObj p =>
      cases isObj with
      | true =>
        simpa [getWriteExprChain, List.dropWhile, isMemberObjectStep] using ih
      | false =>
        simp [getWriteExprChain, List.dropWhile, isMemberObjectStep, headAssignRhs]
    | assign isL rhs =>
      cases isL with
      | true =>
        simp [getWriteExprChain, List.dropWhile, isMemberObjectStep, headAssignRhs]
      | false =>
        simp [getWriteExprChain, List.dropWhile, isMemberObjectStep, headAssignRhs]
    | other =>
      simp [getWriteExprChain, List.dropWhile, isMemberObjectStep, headAssignRhs]

/-- C6 amended: the write expression of a reference is its own writeExpr
when present, else the right side of the assignment reached from the
identifier through object-position member steps, for any assignment
operator, plain or compound; in every other case there is none. -/
theorem getWriteExpr_characterization (ref : Reference) :
    getWriteExpr ref
      = Option.orElse ref.writeExprOwn
          (fun _ => headAssignRhs (ref.chain.dropWhile isMemberObjectStep)) := by
  cases hw : ref.writeExprOwn with
  | some e => simp [getWriteExpr, hw, Option.orElse]
  | none => simp [getWriteExpr, hw, Option.orElse, getWriteExprChain_dropWhile]

/-- C7 counterexample: a member access with a property name statically known
to be the empty string: the source substitutes the wildcard because the
empty string is JS-falsy, while the claim, under which the wildcard appears
exactly for properties that are not statically known, keeps the known empty
name. -/
theorem getReferenceName_empty_property_cex :
    getReferenceName cref7 ≠ claimC7ReferenceName cref7 := by
  decide

theorem chainNames_takeWhile :
    ∀ l : List ParentStep,
      chainNames l = (l.takeWhile isMemberObjectStep).map stepName := by
  intro l
  induction l with
  | nil => rfl
  | cons h rest ih =>
    cases h with
    | member isObj p =>
      cases isObj with
      | true =>
        simpa [chainNames, List.takeWhile, isMemberObjectStep, stepName] using ih
      | false =>
        simp [chainNames, List.takeWhile, isMemberObjectStep]
    | assign isL rhs =>
      simp [chainNames, List.takeWhile, isMemberObjectStep]
    | other =>
      simp [chainNames, List.takeWhile, isMemberObjectStep]

/-- C7 amended: getReferenceName is the identifier name followed by one
display name per ancestor member expression of which the walked node is the
object, up to the first other ancestor, joined with dots; the wildcard is
substituted exactly when the property name is not statically known or is
statically the empty string, since the source tests the getPropertyName
result for JS-falsiness rather than only for null. -/
theorem getReferenceName_characterization (ref : Reference) :
    getReferenceName ref
      = String.intercalate (".")
          (ref.identName :: (ref.chain.takeWhile isMemberObjectStep).map stepName) := by
  unfold getReferenceName
  rw [chainNames_takeWhile]

/-- C9: an unresolved reference occurring in a function scope distinct from
the global scope always resolves to the dummy placeholder cached under its
name, whose scope is the global scope; since the current reference is pushed
onto the placeholder reference list before the escape check, the placeholder
is never classified local without escape, so the assignment the reference
feeds is always registered for verification; a second unresolved reference
with the same name extends the same cached placeholder. -/
theorem dummy_variable_never_local (env : Nat → Variable) (g : Nat)
    (st : AnalysisState) (ref ref2 : Reference) (e : Expr) (segs : List Nat)
    (h1 : ref.resolved = none) (h2 : ¬(ref.fromVariableScope = g))
    (h3 : dummiesWF g st.dummyVariables) (h4 : getWriteExpr ref = some e)
    (h5 : e.parentRightIsSelf = true) (h6 : ref2.resolved = none)
    (h7 : ref2.identName = ref.identName) :
    isLocalVariableWithoutEscape (getVariable env g st.dummyVariables ref).2.1
      (getReferenceName ref) = false ∧
    (getVariable env g st.dummyVariables ref).1 = VarKey.dummy ref.identName ∧
    lookupDummy (getVariable env g st.dummyVariables ref).2.2 ref.identName
      = some (getVariable env g st.dummyVariables ref).2.1 ∧
    (getVariable env g (getVariable env g st.dummyVariables ref).2.2 ref2).2.1.references
      = (getVariable env g st.dummyVariables ref).2.1.references ++ [ref2] ∧
    lookupAssign (handleIdentifier env g st true (some ref) segs).assignmentReferences e.id
      = some ((lookupAssign st.assignmentReferences e.id).getD [] ++ [ref]) := by
  have hgv := getVariable_unresolved env g st.dummyVariables ref h1
  have hlocal : isLocalVariableWithoutEscape (getVariable env g st.dummyVariables ref).2.1
      (getReferenceName ref) = false := by
    rw [hgv]
    exact dummyVar_not_local g st.dummyVariables ref h3 h2
  refine ⟨hlocal, ?_, ?_, ?_, ?_⟩
  · rw [hgv]
  · rw [hgv]
    exact setDummy_lookup_same st.dummyVariables ref.identName (dummyVar g st.dummyVariables ref)
  · have hgv2 := getVariable_unresolved env g
      (getVariable env g st.dummyVariables ref).2.2 ref2 h6
    rw [hgv2, hgv]
    unfold dummyVar
    rw [h7, setDummy_lookup_same]
  · simp only [handleIdentifier, if_pos trivial, h4]
    rw [hlocal]
    simp only [Bool.not_false, h5, Bool.true_and, if_pos rfl]
    exact pushAssign_lookup st.assignmentReferences e.id ref

/-- Witness for C9 at a concrete unresolved reference assigned through a
plain equals assignment inside a function scope, with an empty dummy
cache. -/
theorem dummy_variable_never_local_witness :
    isLocalVariableWithoutEscape (getVariable envW 0 initialState.dummyVariables ref9).2.1
      (getReferenceName ref9) = false ∧
    (getVariable envW 0 initialState.dummyVariables ref9).1 = VarKey.dummy ref9.identName ∧
    lookupDummy (getVariable envW 0 initialState.dummyVariables ref9).2.2 ref9.identName
      = some (getVariable envW 0 initialState.dummyVariables ref9).2.1 ∧
    (getVariable envW 0
        (getVariable envW 0 initialState.dummyVariables ref9).2.2 ref9b).2.1.references
      = (getVariable envW 0 initialState.dummyVariables ref9).2.1.references ++ [ref9b] ∧
    lookupAssign
        (handleIdentifier envW 0 initialState true (some ref9) [0]).assignmentReferences
        rhsEq.id
      = some ((lookupAssign initialState.assignmentReferences rhsEq.id).getD [] ++ [ref9]) :=
  dummy_variable_never_local envW 0 initialState ref9 ref9b rhsEq [0]
    (by decide) (by decide) (by intro pr hpr; cases hpr) (by decide) (by decide)
    (by decide) (by decide)
